import Mathlib

/-!
# Verification of the genever configuration subsystem

Shallow embedding of the configuration subsystem of the `genever`
repository: the map merger (`config/merge.go`), the environment and CLI
tree builders (`config/source/env.go`, `config/source/cli.go`), the file
source (`config/source/cli.go`, FileSource part), the binder wrapper
(`config.Binder.Bind`), the change detector (`config/diff.go`) and the
manager reload loop (`config/manager.go`).

Go values of type `map[string]any` are embedded as association lists with
string keys; Go maps have unique keys, which appears below as `Nodup`
hypotheses on key lists where a statement needs them.
-/

set_option autoImplicit false

namespace Genever

/-- Embedding of the Go `any` values that populate a configuration tree
(`map[string]any`): null, strings, integers, booleans, sequences and
nested maps. A nested map is an association list of key/value pairs. -/
inductive Value where
  | vNull : Value
  | vStr : String → Value
  | vInt : Int → Value
  | vBool : Bool → Value
  | vSeq : List Value → Value
  | vMap : List (String × Value) → Value

/-- A configuration tree: the embedding of Go `map[string]any`. -/
abbrev Tree := List (String × Value)

/-- Whether a value is a nested map (the `v.(map[string]any)` type test). -/
def Value.isMap : Value → Bool
  | Value.vMap _ => true
  | _ => false

/-- Go map read `m[k]`: the first binding of `k`, if any. -/
def lookupKey : Tree → String → Option Value
  | [], _ => none
  | (k, v) :: rest, key => if k = key then some v else lookupKey rest key

/-- Go map write `m[k] = v`: replace the first binding of `k`, or append. -/
def setKey : Tree → String → Value → Tree
  | [], key, value => [(key, value)]
  | (k, v) :: rest, key, value =>
      if k = key then (key, value) :: rest else (k, v) :: setKey rest key value

/-- The key list of a tree. -/
def keys (m : Tree) : List String := m.map Prod.fst

theorem lookupKey_setKey_self (m : Tree) (k : String) (v : Value) :
    lookupKey (setKey m k v) k = some v := by
  induction m with
  | nil => simp [setKey, lookupKey]
  | cons hd tl ih =>
      obtain ⟨k₀, v₀⟩ := hd
      by_cases h : k₀ = k <;> simp [setKey, lookupKey, h, ih]

theorem lookupKey_setKey_ne (m : Tree) (k k₁ : String) (v : Value) (h : k ≠ k₁) :
    lookupKey (setKey m k v) k₁ = lookupKey m k₁ := by
  induction m with
  | nil => simp [setKey, lookupKey, h]
  | cons hd tl ih =>
      obtain ⟨k₀, v₀⟩ := hd
      by_cases h₀ : k₀ = k
      · subst h₀; simp [setKey, lookupKey, h]
      · simp [setKey, lookupKey, h₀, ih]

theorem setKey_lookupKey_self (m : Tree) (k : String) (v : Value)
    (h : lookupKey m k = some v) : setKey m k v = m := by
  induction m with
  | nil => simp [lookupKey] at h
  | cons hd tl ih =>
      obtain ⟨k₀, v₀⟩ := hd
      by_cases h₀ : k₀ = k
      · subst h₀
        simp [lookupKey] at h
        simp [setKey, h]
      · simp [lookupKey, h₀] at h
        simp [setKey, h₀, ih h]

@[simp] theorem keys_nil : keys [] = [] := rfl

@[simp] theorem keys_cons (k : String) (v : Value) (tl : Tree) :
    keys ((k, v) :: tl) = k :: keys tl := rfl

theorem lookupKey_eq_none_of_not_mem_keys (m : Tree) (k : String)
    (h : k ∉ keys m) : lookupKey m k = none := by
  induction m with
  | nil => rfl
  | cons hd tl ih =>
      obtain ⟨k₀, v₀⟩ := hd
      rw [keys_cons, List.mem_cons, not_or] at h
      simp [lookupKey, Ne.symm h.1, ih h.2]

/-- Embedding of `mergeMaps` from `config/merge.go`: for each key of `src`,
recurse when both sides hold nested maps, otherwise overwrite `dst[k]`. -/
def mergeMaps : Tree → Tree → Tree
  | dst, [] => dst
  | dst, (k, v) :: rest =>
      match v, lookupKey dst k with
      | Value.vMap mv, some (Value.vMap ex) =>
          mergeMaps (setKey dst k (Value.vMap (mergeMaps ex mv))) rest
      | _, _ => mergeMaps (setKey dst k v) rest
termination_by dst src => sizeOf src
decreasing_by all_goals simp_wf <;> omega

/-- The value `mergeMaps` stores for a `src` entry `v` when the destination
held `old` at that key: a recursive merge when both sides are nested maps,
otherwise `v` itself. -/
def mergeVal (old : Option Value) (v : Value) : Value :=
  match v, old with
  | Value.vMap mv, some (Value.vMap ex) => Value.vMap (mergeMaps ex mv)
  | _, _ => v

theorem mergeMaps_nil (dst : Tree) : mergeMaps dst [] = dst := by
  rw [mergeMaps]

theorem mergeMaps_cons (dst : Tree) (k : String) (v : Value) (rest : Tree) :
    mergeMaps dst ((k, v) :: rest) =
      mergeMaps (setKey dst k (mergeVal (lookupKey dst k) v)) rest := by
  rcases h : lookupKey dst k with _ | w
  · cases v <;> simp [mergeMaps, mergeVal, h]
  · cases w <;> cases v <;> simp [mergeMaps, mergeVal, h]

theorem mergeVal_of_not_map (old : Option Value) (v : Value) (h : v.isMap = false) :
    mergeVal old v = v := by
  rcases old with _ | w
  · cases v <;> simp [mergeVal]
  · cases w <;> cases v <;> simp_all [mergeVal, Value.isMap]

theorem lookupKey_mergeMaps_of_none (src : Tree) : ∀ (dst : Tree) (k : String),
    lookupKey src k = none → lookupKey (mergeMaps dst src) k = lookupKey dst k := by
  induction src with
  | nil => intro dst k _; rw [mergeMaps_nil]
  | cons hd rest ih =>
      intro dst k h
      obtain ⟨k₀, v₀⟩ := hd
      have hk : ¬ k₀ = k := by
        intro hk
        subst hk
        simp [lookupKey] at h
      have hrest : lookupKey rest k = none := by
        simpa [lookupKey, hk] using h
      rw [mergeMaps_cons, ih _ k hrest, lookupKey_setKey_ne _ _ _ _ hk]

theorem lookupKey_mergeMaps_of_some (src : Tree) : ∀ (dst : Tree) (k : String) (v : Value),
    (keys src).Nodup → lookupKey src k = some v →
    lookupKey (mergeMaps dst src) k = some (mergeVal (lookupKey dst k) v) := by
  induction src with
  | nil => intro dst k v _ h; simp [lookupKey] at h
  | cons hd rest ih =>
      intro dst k v hnd h
      obtain ⟨k₀, v₀⟩ := hd
      rw [keys_cons, List.nodup_cons] at hnd
      rw [mergeMaps_cons]
      by_cases hk : k₀ = k
      · subst hk
        have hv : v₀ = v := by simpa [lookupKey] using h
        subst hv
        have hnone : lookupKey rest k₀ = none :=
          lookupKey_eq_none_of_not_mem_keys _ _ hnd.1
        rw [lookupKey_mergeMaps_of_none rest _ _ hnone, lookupKey_setKey_self]
      · have hrest : lookupKey rest k = some v := by simpa [lookupKey, hk] using h
        rw [ih _ k v hnd.2 hrest, lookupKey_setKey_ne _ _ _ _ hk]

/-- C2: for all configuration trees `A` and `B` (with `B` well formed, i.e.
unique keys as in a Go map), `mergeMaps A B` maps every key `k` present in
`B` to `B[k]` when `B[k]` is not a nested tree (scalars including null, and
sequences, which are replaced wholesale), and to the recursive merge of
`A[k]` and `B[k]` when both are nested trees; every key present only in `A`
keeps its original value unchanged. -/
theorem C2_mergeMaps_spec (A B : Tree) (hB : (keys B).Nodup) (k : String) :
    (∀ v, lookupKey B k = some v → v.isMap = false →
        lookupKey (mergeMaps A B) k = some v) ∧
    (∀ mb ma, lookupKey B k = some (Value.vMap mb) →
        lookupKey A k = some (Value.vMap ma) →
        lookupKey (mergeMaps A B) k = some (Value.vMap (mergeMaps ma mb))) ∧
    (lookupKey B k = none → lookupKey (mergeMaps A B) k = lookupKey A k) := by
  refine ⟨?_, ?_, ?_⟩
  · intro v h hscalar
    rw [lookupKey_mergeMaps_of_some B A k v hB h, mergeVal_of_not_map _ _ hscalar]
  · intro mb ma hB₁ hA₁
    rw [lookupKey_mergeMaps_of_some B A k _ hB hB₁, hA₁]
    rfl
  · intro h
    exact lookupKey_mergeMaps_of_none B A k h

/-- Witness for C2 at concrete trees: a null overrides, sequences are
replaced wholesale, nested trees merge recursively, and a key only in `A`
is untouched. -/
theorem C2_mergeMaps_spec_witness :
    lookupKey
        (mergeMaps
          [("a", Value.vStr "1"), ("s", Value.vSeq [Value.vStr "x", Value.vStr "y"]),
            ("d", Value.vMap [("x", Value.vStr "1")]), ("only", Value.vStr "keep")]
          [("a", Value.vNull), ("s", Value.vSeq [Value.vStr "z"]),
            ("d", Value.vMap [("x", Value.vStr "9")])])
        "a" = some Value.vNull ∧
    lookupKey
        (mergeMaps
          [("a", Value.vStr "1"), ("s", Value.vSeq [Value.vStr "x", Value.vStr "y"]),
            ("d", Value.vMap [("x", Value.vStr "1")]), ("only", Value.vStr "keep")]
          [("a", Value.vNull), ("s", Value.vSeq [Value.vStr "z"]),
            ("d", Value.vMap [("x", Value.vStr "9")])])
        "s" = some (Value.vSeq [Value.vStr "z"]) ∧
    lookupKey
        (mergeMaps
          [("a", Value.vStr "1"), ("s", Value.vSeq [Value.vStr "x", Value.vStr "y"]),
            ("d", Value.vMap [("x", Value.vStr "1")]), ("only", Value.vStr "keep")]
          [("a", Value.vNull), ("s", Value.vSeq [Value.vStr "z"]),
            ("d", Value.vMap [("x", Value.vStr "9")])])
        "d" =
      some (Value.vMap (mergeMaps [("x", Value.vStr "1")] [("x", Value.vStr "9")])) ∧
    lookupKey
        (mergeMaps
          [("a", Value.vStr "1"), ("s", Value.vSeq [Value.vStr "x", Value.vStr "y"]),
            ("d", Value.vMap [("x", Value.vStr "1")]), ("only", Value.vStr "keep")]
          [("a", Value.vNull), ("s", Value.vSeq [Value.vStr "z"]),
            ("d", Value.vMap [("x", Value.vStr "9")])])
        "only" =
      lookupKey
        [("a", Value.vStr "1"), ("s", Value.vSeq [Value.vStr "x", Value.vStr "y"]),
          ("d", Value.vMap [("x", Value.vStr "1")]), ("only", Value.vStr "keep")]
        "only" :=
  ⟨(C2_mergeMaps_spec _ _ (by decide) "a").1 Value.vNull (by rfl) (by rfl),
    (C2_mergeMaps_spec _ _ (by decide) "s").1 (Value.vSeq [Value.vStr "z"]) (by rfl) (by rfl),
    (C2_mergeMaps_spec _ _ (by decide) "d").2.1 [("x", Value.vStr "9")]
      [("x", Value.vStr "1")] (by rfl) (by rfl),
    (C2_mergeMaps_spec _ _ (by decide) "only").2.2 (by rfl)⟩

/-- Embedding of `strings.SplitN(s, sep, 2)` for a one-character
separator, on character lists: the text before the first separator and
the text after it, or nothing when the separator does not occur. -/
def splitFirst (sep : Char) : List Char → Option (List Char × List Char)
  | [] => none
  | c :: cs =>
      if c = sep then some ([], cs)
      else
        match splitFirst sep cs with
        | none => none
        | some (l, r) => some (c :: l, r)

/-- Embedding of `strings.Split(s, sep)` for a one-character separator, on
character lists. Splitting the empty text yields one empty segment, as in
Go. -/
def splitSegs (sep : Char) : List Char → List (List Char)
  | [] => [[]]
  | c :: cs =>
      let rest := splitSegs sep cs
      if c = sep then [] :: rest
      else
        match rest with
        | [] => [[c]]
        | s :: ss => (c :: s) :: ss

/-- Embedding of `strings.ToLower` for the ASCII range (environment
variable names here are ASCII): map an upper-case letter to its
lower-case form. -/
def asciiToLower (c : Char) : Char :=
  if 'A' ≤ c ∧ c ≤ 'Z' then Char.ofNat (c.toNat + 32) else c

/-- Embedding of the `strings.HasPrefix`/`strings.TrimPrefix` pair for the
fixed lead-in `ENV_PREFIX = "GENEVER_"` of `config/source/env.go`: the
remainder of the name when it starts with `GENEVER_`. -/
def stripEnvHead : List Char → Option (List Char)
  | 'G' :: 'E' :: 'N' :: 'E' :: 'V' :: 'E' :: 'R' :: '_' :: rest => some rest
  | _ => none

/-- Embedding of `parseEnvLine` from `config/source/env.go`:
`strings.SplitN(env, "=", 2)` yields two parts exactly when the line
contains `=`; the value keeps any further `=` characters. -/
def parseEnvLine (env : String) : Option (String × String) :=
  match splitFirst '=' env.toList with
  | none => none
  | some (k, v) => some (String.mk k, String.mk v)

/-- Embedding of `setNestedValue` from `config/source/env.go`: walk the
segment path, skipping empty segments; write the value at the final
position of the original segment list (where the remaining suffix is a
singleton); descend through existing nested maps, creating missing ones;
return the tree unchanged when a non-map value occupies an intermediate
segment. The Go function mutates nested maps in place, which appears here
as rebuilding the owning entry via `setKey`. -/
def setNestedValue (m : Tree) (segs : List String) (value : String) : Tree :=
  match segs with
  | [] => m
  | [seg] => if seg = "" then m else setKey m seg (Value.vStr value)
  | seg :: rest =>
      if seg = "" then setNestedValue m rest value
      else
        match lookupKey m seg with
        | some (Value.vMap nested) =>
            setKey m seg (Value.vMap (setNestedValue nested rest value))
        | some _ => m
        | none => setKey m seg (Value.vMap (setNestedValue [] rest value))

/-- Embedding of `loadEnvVars` from `config/source/env.go`, over an
explicit environment list (each entry a `KEY=VALUE` line as `os.Environ`
yields): keep entries whose key starts with `GENEVER_`, strip that
lead-in, lowercase, split on `_`, and set the segment path. -/
def loadEnvVars (environ : List String) : Tree :=
  environ.foldl
    (fun result env =>
      match parseEnvLine env with
      | none => result
      | some (key, value) =>
          match stripEnvHead key.toList with
          | none => result
          | some tail =>
              let segments :=
                (splitSegs '_' (tail.map asciiToLower)).map (fun l => String.mk l)
              if segments.length = 0 then result
              else setNestedValue result segments value)
    []

/-- Specification predicate for the conflict rule: the segment path, with
empty segments skipped, descends through existing nested maps and meets a
non-map leaf at a segment that is not the final one. -/
inductive BlockedPath : Tree → List String → Prop where
  | here (m : Tree) (a : String) (rest : List String) (w : Value) :
      a ≠ "" → rest ≠ [] → lookupKey m a = some w → w.isMap = false →
      BlockedPath m (a :: rest)
  | skip (m : Tree) (rest : List String) :
      BlockedPath m rest → BlockedPath m ("" :: rest)
  | deeper (m : Tree) (a : String) (rest : List String) (sub : Tree) :
      a ≠ "" → lookupKey m a = some (Value.vMap sub) → BlockedPath sub rest →
      BlockedPath m (a :: rest)

theorem BlockedPath.ne_nil {m : Tree} {segs : List String}
    (h : BlockedPath m segs) : segs ≠ [] := by
  cases h <;> simp

theorem setNestedValue_of_blocked (m : Tree) (segs : List String) (v : String)
    (hb : BlockedPath m segs) : setNestedValue m segs v = m := by
  induction hb with
  | here m a rest w ha hrest hlook hmap =>
      cases rest with
      | nil => exact absurd rfl hrest
      | cons b rs =>
          cases w <;> simp [setNestedValue, ha, hlook] <;> simp [Value.isMap] at hmap
  | skip m rest hb ih =>
      cases rest with
      | nil => exact absurd rfl hb.ne_nil
      | cons b rs => simpa [setNestedValue] using ih
  | deeper m a rest sub ha hlook hb ih =>
      cases rest with
      | nil => exact absurd rfl hb.ne_nil
      | cons b rs =>
          simp only [setNestedValue, ha, if_false, hlook, ih]
          exact setKey_lookupKey_self m a _ hlook

/-- C6: in the environment source, if a shorter underscore-delimited path
has already resolved to a scalar leaf, a later entry whose longer path
would descend through that leaf is silently dropped (the tree is returned
unchanged); in particular `GENEVER_DB=mydb` followed by
`GENEVER_DB_HOST=localhost` yields the tree `{"db": "mydb"}`. -/
theorem C6_env_conflict_drop :
    (∀ (m : Tree) (segs : List String) (v : String),
        BlockedPath m segs → setNestedValue m segs v = m) ∧
    loadEnvVars ["GENEVER_DB=mydb", "GENEVER_DB_HOST=localhost"] =
      [("db", Value.vStr "mydb")] := by
  constructor
  · exact setNestedValue_of_blocked
  · rfl

/-- Witness for C6: the concrete blocked write `db.host` over the existing
scalar leaf `db` leaves the tree untouched. -/
theorem C6_env_conflict_drop_witness :
    setNestedValue [("db", Value.vStr "mydb")] ["db", "host"] "localhost" =
      [("db", Value.vStr "mydb")] :=
  C6_env_conflict_drop.1 _ _ _
    (BlockedPath.here _ "db" ["host"] (Value.vStr "mydb") (by decide) (by simp)
      rfl rfl)

/-- C10: the first-write-wins protection of the tree builder shared by the
environment and CLI sources is asymmetric: when a nested subtree already
exists at a key and a later entry's path ends exactly at that key, the
scalar value overwrites and discards the whole subtree; in particular
`GENEVER_DB_HOST=localhost` followed by `GENEVER_DB=mydb` yields
`{"db": "mydb"}`, losing the nested `host` entry. -/
theorem C10_scalar_overwrites_subtree :
    (∀ (m : Tree) (a : String) (sub : Tree) (v : String), a ≠ "" →
        lookupKey m a = some (Value.vMap sub) →
        lookupKey (setNestedValue m [a] v) a = some (Value.vStr v)) ∧
    loadEnvVars ["GENEVER_DB_HOST=localhost", "GENEVER_DB=mydb"] =
      [("db", Value.vStr "mydb")] := by
  constructor
  · intro m a sub v ha _
    simp [setNestedValue, ha, lookupKey_setKey_self]
  · rfl

/-- Witness for C10: a scalar written at key `db` replaces the existing
nested subtree stored there. -/
theorem C10_scalar_overwrites_subtree_witness :
    lookupKey
        (setNestedValue [("db", Value.vMap [("host", Value.vStr "localhost")])]
          ["db"] "mydb")
        "db" = some (Value.vStr "mydb") :=
  C10_scalar_overwrites_subtree.1 _ "db" [("host", Value.vStr "localhost")] "mydb"
    (by decide) rfl

/-- Errors a source load can report: the base file is missing
(`os.ErrNotExist`), a document failed to parse, or — the case the spec
reserves for a fired cancellation signal — a cancellation error. -/
inductive LoadError where
  | notFound
  | parseError
  | cancelled
  deriving DecidableEq

/-- The state a `FileSource` load observes: the parse outcome of the base
`application.(yaml|yml)` file (`none` when `findYAMLFile` finds no file),
the configured profile, and the parse outcome of the
`application.<profile>.(yaml|yml)` overlay file. -/
structure FileSourceState where
  baseDoc : Option (Except Unit Tree)
  profile : String
  profileDoc : Option (Except Unit Tree)

/-- Modelled from the spec: `readYAML` in `config/source/cli.go` delegates
to the external `gopkg.in/yaml.v3` dependency, which is not part of the
repository; per the spec, decoding a document into an already populated
`map[string]any` overwrites whole top-level keys of the accumulator with
the document's values and keeps accumulator keys the document lacks, and
a malformed document fails before any key is decoded. -/
def readYAMLInto (acc : Tree) (doc : Tree) : Tree :=
  doc.foldl (fun a kv => setKey a kv.1 kv.2) acc

/-- Embedding of `FileSource.Load` from `config/source/cli.go`: fail with
not-found when no base file exists, fail when the base document is
malformed, then, when a profile is set and the overlay file exists,
decode the overlay into the same accumulator with its error discarded
(`_ = readYAML(profileFile, data)`). The cancellation signal `ctx` is not
consulted by the Go code. -/
def fileSourceLoad (ctx : Bool) (f : FileSourceState) : Except LoadError Tree :=
  match f.baseDoc with
  | none => Except.error LoadError.notFound
  | some (Except.error _) => Except.error LoadError.parseError
  | some (Except.ok d) =>
      let data := readYAMLInto [] d
      if f.profile ≠ "" then
        match f.profileDoc with
        | some (Except.ok pd) => Except.ok (readYAMLInto data pd)
        | _ => Except.ok data
      else Except.ok data

theorem lookupKey_readYAMLInto_of_none (doc : Tree) : ∀ (acc : Tree) (k : String),
    lookupKey doc k = none → lookupKey (readYAMLInto acc doc) k = lookupKey acc k := by
  induction doc with
  | nil => intro acc k _; rfl
  | cons hd rest ih =>
      intro acc k h
      obtain ⟨k₀, v₀⟩ := hd
      have hk : ¬ k₀ = k := by
        intro hk
        subst hk
        simp [lookupKey] at h
      have hrest : lookupKey rest k = none := by simpa [lookupKey, hk] using h
      show lookupKey (readYAMLInto (setKey acc k₀ v₀) rest) k = lookupKey acc k
      rw [ih _ k hrest, lookupKey_setKey_ne _ _ _ _ hk]

theorem lookupKey_readYAMLInto_of_some (doc : Tree) : ∀ (acc : Tree) (k : String) (v : Value),
    (keys doc).Nodup → lookupKey doc k = some v →
    lookupKey (readYAMLInto acc doc) k = some v := by
  induction doc with
  | nil => intro acc k v _ h; simp [lookupKey] at h
  | cons hd rest ih =>
      intro acc k v hnd h
      obtain ⟨k₀, v₀⟩ := hd
      rw [keys_cons, List.nodup_cons] at hnd
      by_cases hk : k₀ = k
      · subst hk
        have hv : v₀ = v := by simpa [lookupKey] using h
        subst hv
        have hnone : lookupKey rest k₀ = none :=
          lookupKey_eq_none_of_not_mem_keys _ _ hnd.1
        show lookupKey (readYAMLInto (setKey acc k₀ v₀) rest) k₀ = some v₀
        rw [lookupKey_readYAMLInto_of_none rest _ _ hnone, lookupKey_setKey_self]
      · have hrest : lookupKey rest k = some v := by simpa [lookupKey, hk] using h
        show lookupKey (readYAMLInto (setKey acc k₀ v₀) rest) k = some v
        exact ih _ k v hnd.2 hrest

/-- C4: when a profile is set and both documents parse, the file source
returns the base document's decode with the overlay decoded over it, so
every top-level key of the overlay replaces the corresponding base key
wholesale; in particular base `{app:{name:"x",port:8080}}` with overlay
`{app:{port:9090}}` yields `{app:{port:9090}}`, losing the `name` key. -/
theorem C4_profile_overlay_replaces (ctx : Bool) (f : FileSourceState) (d pd : Tree)
    (hprof : f.profile ≠ "") (hbase : f.baseDoc = some (Except.ok d))
    (hover : f.profileDoc = some (Except.ok pd)) :
    fileSourceLoad ctx f = Except.ok (readYAMLInto (readYAMLInto [] d) pd) ∧
    (∀ k v, (keys pd).Nodup → lookupKey pd k = some v →
        lookupKey (readYAMLInto (readYAMLInto [] d) pd) k = some v) ∧
    readYAMLInto
        (readYAMLInto []
          [("app", Value.vMap [("name", Value.vStr "x"), ("port", Value.vInt 8080)])])
        [("app", Value.vMap [("port", Value.vInt 9090)])] =
      [("app", Value.vMap [("port", Value.vInt 9090)])] := by
  refine ⟨?_, ?_, rfl⟩
  · simp [fileSourceLoad, hbase, hover, hprof]
  · intro k v hnd h
    exact lookupKey_readYAMLInto_of_some pd _ k v hnd h

/-- Witness for C4 at a concrete file source state holding the scenario's
base and overlay documents. -/
theorem C4_profile_overlay_replaces_witness :
    fileSourceLoad false
        { baseDoc :=
            some (Except.ok
              [("app", Value.vMap [("name", Value.vStr "x"), ("port", Value.vInt 8080)])]),
          profile := "prod",
          profileDoc :=
            some (Except.ok [("app", Value.vMap [("port", Value.vInt 9090)])]) } =
      Except.ok
        (readYAMLInto
          (readYAMLInto []
            [("app", Value.vMap [("name", Value.vStr "x"), ("port", Value.vInt 8080)])])
          [("app", Value.vMap [("port", Value.vInt 9090)])]) :=
  (C4_profile_overlay_replaces false _ _ _ (by decide) rfl rfl).1

/-- C5 counterexample: a load whose profile overlay document is malformed
does not fail — the overlay's error is discarded by
`_ = readYAML(profileFile, data)` in `config/source/cli.go`, and the
load returns a tree. -/
theorem C5_counterexample :
    fileSourceLoad false
        { baseDoc := some (Except.ok [("app", Value.vStr "x")]),
          profile := "prod",
          profileDoc := some (Except.error ()) } =
      Except.ok [("app", Value.vStr "x")] := rfl

/-- C5 amended: a malformed base document fails the load with a parse
error, but a malformed profile overlay does not fail the load — whenever
the base document parses, the load returns a tree. -/
theorem C5_parse_error_amended (ctx : Bool) (f : FileSourceState) :
    (∀ e, f.baseDoc = some (Except.error e) →
        fileSourceLoad ctx f = Except.error LoadError.parseError) ∧
    (∀ d, f.baseDoc = some (Except.ok d) →
        ∃ t, fileSourceLoad ctx f = Except.ok t) := by
  constructor
  · intro e h
    simp [fileSourceLoad, h]
  · intro d h
    by_cases hprof : f.profile = ""
    · exact ⟨readYAMLInto [] d, by simp [fileSourceLoad, h, hprof]⟩
    · match hover : f.profileDoc with
      | some (Except.ok pd) =>
          exact ⟨readYAMLInto (readYAMLInto [] d) pd,
            by simp [fileSourceLoad, h, hprof, hover]⟩
      | some (Except.error u) =>
          exact ⟨readYAMLInto [] d, by simp [fileSourceLoad, h, hprof, hover]⟩
      | none => exact ⟨readYAMLInto [] d, by simp [fileSourceLoad, h, hprof, hover]⟩

/-- Witness for the amended C5: a malformed base document fails, and a
well-formed base with a malformed overlay still loads. -/
theorem C5_parse_error_amended_witness :
    fileSourceLoad false
        { baseDoc := some (Except.error ()), profile := "",
          profileDoc := none } =
      Except.error LoadError.parseError ∧
    ∃ t,
      fileSourceLoad false
          { baseDoc := some (Except.ok [("app", Value.vStr "x")]),
            profile := "prod",
            profileDoc := some (Except.error ()) } =
        Except.ok t :=
  ⟨(C5_parse_error_amended false _).1 () rfl,
    (C5_parse_error_amended false _).2 [("app", Value.vStr "x")] rfl⟩

/-- Embedding of `EnvSource.Load` from `config/source/env.go`: returns the
scanned environment tree and never an error; the cancellation signal
`ctx` is not consulted by the Go code. -/
def envSourceLoad (ctx : Bool) (environ : List String) : Except LoadError Tree :=
  Except.ok (loadEnvVars environ)

/-- Embedding of `extractFlagName` from `config/source/cli.go`: strip the
leading dashes and keep the part before `=`, on character lists. -/
def extractFlagName (arg : List Char) : List Char :=
  let t := arg.dropWhile (fun c => c = '-')
  match splitFirst '=' t with
  | some (l, _) => l
  | none => t

/-- Modelled from the spec: the flag loop of `parseCliFlags` in
`config/source/cli.go` delegates value association to the external
`spf13/pflag` dependency, which is not part of the repository; per the
spec the CLI source scans flag-like tokens `--name=value` and
`--name value`, extracts the name before `=`, splits it on `.`, drops
empty values, ignores non-flag tokens, and builds the tree exactly as the
environment source does. -/
def parseCliFlagsGo : Tree → List String → Tree
  | result, [] => result
  | result, arg :: rest =>
      if arg.toList.head? = some '-' then
        let name := extractFlagName arg.toList
        if name = [] then parseCliFlagsGo result rest
        else
          let segments := (splitSegs '.' name).map (fun l => String.mk l)
          match splitFirst '=' (arg.toList.dropWhile (fun c => c = '-')) with
          | some (_, value) =>
              parseCliFlagsGo
                (if value = [] then result
                 else setNestedValue result segments (String.mk value))
                rest
          | none =>
              match h : rest with
              | [] => result
              | v :: rs =>
                  if v.toList.head? = some '-' then parseCliFlagsGo result rest
                  else
                    parseCliFlagsGo
                      (if v = "" then result else setNestedValue result segments v) rs
      else parseCliFlagsGo result rest
termination_by result args => args.length
decreasing_by
  all_goals simp_wf
  all_goals (try subst h)
  all_goals (try simp only [List.length_cons])
  all_goals omega

/-- Embedding of `CLISource.Load` from `config/source/cli.go`: parses the
process arguments and never returns an error; the cancellation signal
`ctx` is not consulted by the Go code. -/
def cliSourceLoad (ctx : Bool) (args : List String) : Except LoadError Tree :=
  Except.ok (parseCliFlagsGo [] args)

/-- C7 counterexample: with the cancellation signal already fired, the
environment source's load still returns a tree instead of a cancellation
error. -/
theorem C7_counterexample :
    envSourceLoad true ["GENEVER_DB=mydb"] =
      Except.ok [("db", Value.vStr "mydb")] := rfl

/-- C7 amended: the three source variants ignore the cancellation signal
entirely — each load returns the same result whether or not the signal
has fired, and never returns a cancellation error; cancellation of a
reload is handled by the manager, which checks the signal before each
source load. -/
theorem C7_load_ignores_cancellation (ctx : Bool) (environ args : List String)
    (f : FileSourceState) :
    envSourceLoad ctx environ = envSourceLoad false environ ∧
    cliSourceLoad ctx args = cliSourceLoad false args ∧
    fileSourceLoad ctx f = fileSourceLoad false f ∧
    envSourceLoad ctx environ ≠ Except.error LoadError.cancelled ∧
    cliSourceLoad ctx args ≠ Except.error LoadError.cancelled ∧
    fileSourceLoad ctx f ≠ Except.error LoadError.cancelled := by
  refine ⟨rfl, rfl, rfl, by simp [envSourceLoad], by simp [cliSourceLoad], ?_⟩
  rcases f with ⟨base, profile, over⟩
  rcases base with _ | d
  · simp [fileSourceLoad]
  · rcases d with e | d
    · simp [fileSourceLoad]
    · by_cases hprof : profile = ""
      · simp [fileSourceLoad, hprof]
      · rcases over with _ | pd
        · simp [fileSourceLoad, hprof]
        · rcases pd with e | pd <;> simp [fileSourceLoad, hprof]

/-- Witness for the amended C7 at a fired cancellation signal and concrete
source states. -/
theorem C7_load_ignores_cancellation_witness :
    envSourceLoad true ["GENEVER_DB=mydb"] = envSourceLoad false ["GENEVER_DB=mydb"] ∧
    cliSourceLoad true ["--port=9999"] = cliSourceLoad false ["--port=9999"] ∧
    fileSourceLoad true
        { baseDoc := some (Except.ok [("app", Value.vStr "x")]), profile := "",
          profileDoc := none } =
      fileSourceLoad false
        { baseDoc := some (Except.ok [("app", Value.vStr "x")]), profile := "",
          profileDoc := none } ∧
    envSourceLoad true ["GENEVER_DB=mydb"] ≠ Except.error LoadError.cancelled ∧
    cliSourceLoad true ["--port=9999"] ≠ Except.error LoadError.cancelled ∧
    fileSourceLoad true
        { baseDoc := some (Except.ok [("app", Value.vStr "x")]), profile := "",
          profileDoc := none } ≠
      Except.error LoadError.cancelled :=
  C7_load_ignores_cancellation true ["GENEVER_DB=mydb"] ["--port=9999"] _

/-- A bind failure from `Binder.Bind` (the `BindError` of the config
package): the failing stage (`"decode"` or `"validate"`) and the
underlying cause. -/
structure BindError where
  stage : String
  err : String
  deriving DecidableEq

/-- Embedding of `Binder.Bind` from the config package: run the decode
stage, wrapping its failure with stage `"decode"`, then the validate
stage, wrapping its failure with stage `"validate"`; on success the
decoded record is the result. The decode and validate stages themselves
(the external `mapstructure` and `validator` dependencies) are
parameters. -/
def binderBind {R : Type} (decode : Tree → Except String R)
    (validate : R → Option String) (source : Tree) : Except BindError R :=
  match decode source with
  | Except.error e => Except.error ⟨"decode", e⟩
  | Except.ok r =>
      match validate r with
      | some e => Except.error ⟨"validate", e⟩
      | none => Except.ok r

/-- An error `Manager.Reload` can return: the cancellation error from the
signal check, a wrapped source load failure, or a wrapped bind failure. -/
inductive ReloadError where
  | cancelled
  | loadFailed (e : LoadError)
  | bindFailed (e : BindError)
  deriving DecidableEq

/-- A subscriber channel: a bounded buffer of change events, each event
the pair of the prior and new bound record. -/
structure Sink (R : Type) where
  cap : Nat
  buf : List (R × R)
  deriving DecidableEq

/-- The non-blocking send of `Manager.notify`
(`select { case ch <- evt: default: }` in `config/manager.go`): the event
is appended when the buffer has room and silently dropped otherwise. -/
def offerEvent {R : Type} (evt : R × R) (s : Sink R) : Sink R :=
  if s.buf.length < s.cap then { s with buf := s.buf ++ [evt] } else s

/-- The manager's mutable state: the single live bound record and the
subscriber list. -/
structure ManagerState (R : Type) where
  config : R
  subs : List (Sink R)
  deriving DecidableEq

/-- Embedding of the source-loading loop of `Manager.Reload`
(`config/manager.go`): check the cancellation signal before each source,
load it, and merge its tree into the accumulator with `mergeMaps`. A
source is represented by its load outcome, since each load is consulted
exactly once per reload. -/
def loadAndMerge (ctx : Bool) : List (Except LoadError Tree) → Tree → Except ReloadError Tree
  | [], acc => Except.ok acc
  | src :: rest, acc =>
      if ctx then Except.error ReloadError.cancelled
      else
        match src with
        | Except.error e => Except.error (ReloadError.loadFailed e)
        | Except.ok t => loadAndMerge ctx rest (mergeMaps acc t)

/-- Embedding of `Manager.Reload` (`config/manager.go`): load and merge
all sources in order into an empty accumulator, bind and validate the
merged tree into a fresh record, and only on success swap it into the
live state; the old record is snapshotted for comparison, and when the
new record deep-equals the old one no event is sent, otherwise the event
is offered to every currently subscribed sink. On any failure the state
is returned untouched together with the error. -/
def managerReload {R : Type} [DecidableEq R] (ctx : Bool)
    (srcs : List (Except LoadError Tree)) (decode : Tree → Except String R)
    (validate : R → Option String) (s : ManagerState R) :
    ManagerState R × Option ReloadError :=
  match loadAndMerge ctx srcs [] with
  | Except.error e => (s, some e)
  | Except.ok merged =>
      match binderBind decode validate merged with
      | Except.error e => (s, some (ReloadError.bindFailed e))
      | Except.ok newCfg =>
          if s.config = newCfg then ({ s with config := newCfg }, none)
          else
            ({ config := newCfg,
               subs := s.subs.map (offerEvent (s.config, newCfg)) }, none)

/-- C1: for every manager state and every reload in which some source load
fails (or the cancellation signal fires), or the bind fails at the decode
stage, or validation fails, `Reload` returns the untouched prior state
together with an error: the live bound record's value is exactly what it
was before the call and the manager keeps its last-good record. -/
theorem C1_reload_atomic {R : Type} [DecidableEq R] (ctx : Bool)
    (srcs : List (Except LoadError Tree)) (decode : Tree → Except String R)
    (validate : R → Option String) (s : ManagerState R)
    (h : (∃ e, loadAndMerge ctx srcs [] = Except.error e) ∨
      (∃ t be, loadAndMerge ctx srcs [] = Except.ok t ∧
        binderBind decode validate t = Except.error be)) :
    ∃ err, managerReload ctx srcs decode validate s = (s, some err) := by
  rcases h with ⟨e, he⟩ | ⟨t, be, ht, hb⟩
  · exact ⟨e, by simp [managerReload, he]⟩
  · exact ⟨ReloadError.bindFailed be, by simp [managerReload, ht, hb]⟩

/-- Witness for C1: a failing source load and a failing validation each
leave a concrete manager state untouched. -/
theorem C1_reload_atomic_witness :
    (∃ err,
      managerReload false [Except.error LoadError.notFound]
          (fun _ => Except.ok (0 : Int)) (fun _ => none)
          { config := 7, subs := [] } =
        ({ config := 7, subs := [] }, some err)) ∧
    (∃ err,
      managerReload false [] (fun _ => Except.ok (99999 : Int))
          (fun n => if n > 65535 then some "max" else none)
          { config := 8080, subs := [] } =
        ({ config := 8080, subs := [] }, some err)) :=
  ⟨C1_reload_atomic false [Except.error LoadError.notFound]
      (fun _ => Except.ok (0 : Int)) (fun _ => none) { config := 7, subs := [] }
      (Or.inl ⟨ReloadError.loadFailed LoadError.notFound, rfl⟩),
    C1_reload_atomic false [] (fun _ => Except.ok (99999 : Int))
      (fun n => if n > 65535 then some "max" else none) { config := 8080, subs := [] }
      (Or.inr ⟨[], ⟨"validate", "max"⟩, rfl, rfl⟩)⟩

theorem loadAndMerge_all_ok (ts : List Tree) : ∀ acc : Tree,
    loadAndMerge false (ts.map Except.ok) acc = Except.ok (ts.foldl mergeMaps acc) := by
  induction ts with
  | nil => intro acc; rfl
  | cons t rest ih => intro acc; simpa [loadAndMerge] using ih (mergeMaps acc t)

/-- Decimal parse of a digit run, most significant digit first. -/
def parseDecimalGo : Nat → List Char → Option Nat
  | acc, [] => some acc
  | acc, c :: cs =>
      if '0' ≤ c ∧ c ≤ '9' then parseDecimalGo (acc * 10 + (c.toNat - '0'.toNat)) cs
      else none

/-- Modelled from the spec: the decode stage coerces a numeric-looking
string into an integer field (the external `mapstructure` dependency with
weak typing); this record shape has the single integer field keyed
`port`, left at its zero value when the key is missing. -/
def decodePort (t : Tree) : Except String Int :=
  match lookupKey t "port" with
  | some (Value.vInt n) => Except.ok n
  | some (Value.vStr s) =>
      match s.toList with
      | [] => Except.error "cannot parse"
      | cs =>
          match parseDecimalGo 0 cs with
          | some n => Except.ok (Int.ofNat n)
          | none => Except.error "cannot parse"
  | some _ => Except.error "cannot decode"
  | none => Except.ok 0

/-- C3: sources are loaded and merged into the accumulator in list order
(`loadAndMerge` over the source list equals the left fold of `mergeMaps`,
deterministically), so a later source's non-map value for a key overrides
every earlier source's; in particular reloading from the sources
`[File{port:8080}, Env{port:"9090"}, CLI{port:"9999"}]` leaves the bound
record's port equal to `9999`. -/
theorem C3_order_and_precedence :
    (∀ ts : List Tree, loadAndMerge false (ts.map Except.ok) [] =
        Except.ok (ts.foldl mergeMaps [])) ∧
    (∀ (pre : List Tree) (t : Tree) (k : String) (v : Value),
        (keys t).Nodup → lookupKey t k = some v → v.isMap = false →
        lookupKey ((pre ++ [t]).foldl mergeMaps []) k = some v) ∧
    (managerReload false
        [Except.ok [("port", Value.vInt 8080)],
          Except.ok [("port", Value.vStr "9090")],
          Except.ok [("port", Value.vStr "9999")]]
        decodePort (fun _ => none) { config := 0, subs := [] }).1.config = 9999 := by
  refine ⟨fun ts => loadAndMerge_all_ok ts [], ?_, ?_⟩
  · intro pre t k v hnd h hscalar
    rw [List.foldl_append]
    show lookupKey (mergeMaps (pre.foldl mergeMaps []) t) k = some v
    rw [lookupKey_mergeMaps_of_some t _ k v hnd h, mergeVal_of_not_map _ _ hscalar]
  · have e1 : mergeMaps [] [("port", Value.vInt 8080)] =
        [("port", Value.vInt 8080)] := by
      rw [mergeMaps_cons, mergeMaps_nil]
      rfl
    have e2 : mergeMaps [("port", Value.vInt 8080)] [("port", Value.vStr "9090")] =
        [("port", Value.vStr "9090")] := by
      rw [mergeMaps_cons, mergeMaps_nil]
      rfl
    have e3 : mergeMaps [("port", Value.vStr "9090")] [("port", Value.vStr "9999")] =
        [("port", Value.vStr "9999")] := by
      rw [mergeMaps_cons, mergeMaps_nil]
      rfl
    have hl : loadAndMerge false
        [Except.ok [("port", Value.vInt 8080)],
          Except.ok [("port", Value.vStr "9090")],
          Except.ok [("port", Value.vStr "9999")]] [] =
        Except.ok [("port", Value.vStr "9999")] := by
      have := loadAndMerge_all_ok
        [[("port", Value.vInt 8080)], [("port", Value.vStr "9090")],
          [("port", Value.vStr "9999")]] []
      simpa [List.foldl, e1, e2, e3] using this
    simp only [managerReload, hl]
    rfl

/-- Witness for C3: the last source's scalar for `port` wins at the
concrete three-source list of the scenario. -/
theorem C3_order_and_precedence_witness :
    lookupKey
        (([[("port", Value.vInt 8080)], [("port", Value.vStr "9090")]] ++
            [[("port", Value.vStr "9999")]]).foldl mergeMaps [])
        "port" = some (Value.vStr "9999") :=
  C3_order_and_precedence.2.1 _ _ "port" (Value.vStr "9999") (by decide) rfl rfl

/-- C8: for a reload whose sources load and whose bind succeeds, a newly
bound record deeply equal to the live record sends no event to any
subscriber (the state keeps its sinks untouched, and a second reload from
the same unchanged source data again notifies zero subscribers), while a
record that differs offers a change event to every currently subscribed
sink. -/
theorem C8_notify_on_change {R : Type} [DecidableEq R] (ctx : Bool)
    (srcs : List (Except LoadError Tree)) (decode : Tree → Except String R)
    (validate : R → Option String) (s : ManagerState R) (merged : Tree) (newCfg : R)
    (hload : loadAndMerge ctx srcs [] = Except.ok merged)
    (hbind : binderBind decode validate merged = Except.ok newCfg) :
    (newCfg = s.config →
        managerReload ctx srcs decode validate s = (s, none)) ∧
    (newCfg ≠ s.config →
        managerReload ctx srcs decode validate s =
          ({ config := newCfg,
             subs := s.subs.map (offerEvent (s.config, newCfg)) }, none)) ∧
    (∀ s₁, managerReload ctx srcs decode validate s = (s₁, none) →
        managerReload ctx srcs decode validate s₁ = (s₁, none)) := by
  refine ⟨?_, ?_, ?_⟩
  · intro h
    subst h
    simp [managerReload, hload, hbind]
  · intro h
    have hc : ¬ (s.config = newCfg) := fun hc => h hc.symm
    simp [managerReload, hload, hbind, hc]
  · intro s₁ h1
    have hcfg : s₁.config = newCfg := by
      by_cases hc : s.config = newCfg
      · simp [managerReload, hload, hbind, hc] at h1
        rw [← h1]
      · simp [managerReload, hload, hbind, hc] at h1
        rw [← h1]
    have heta : ({ config := newCfg, subs := s₁.subs } : ManagerState R) = s₁ := by
      rw [← hcfg]
    simp [managerReload, hload, hbind, hcfg, heta]

/-- Witness for C8: with one subscribed sink of capacity one, a reload
that changes the record offers the event to that sink, and a reload that
leaves the record equal sends nothing. -/
theorem C8_notify_on_change_witness :
    (managerReload false [] (fun _ => Except.ok (42 : Int)) (fun _ => none)
        { config := 0, subs := [{ cap := 1, buf := [] }] } =
      ({ config := 42,
         subs := [{ cap := 1, buf := [] }].map (offerEvent ((0 : Int), 42)) }, none)) ∧
    (managerReload false [] (fun _ => Except.ok (42 : Int)) (fun _ => none)
        { config := 42, subs := [{ cap := 1, buf := [] }] } =
      ({ config := 42, subs := [{ cap := 1, buf := [] }] }, none)) :=
  ⟨(C8_notify_on_change false [] (fun _ => Except.ok (42 : Int)) (fun _ => none)
      { config := 0, subs := [{ cap := 1, buf := [] }] } [] 42 rfl rfl).2.1 (by decide),
    (C8_notify_on_change false [] (fun _ => Except.ok (42 : Int)) (fun _ => none)
      { config := 42, subs := [{ cap := 1, buf := [] }] } [] 42 rfl rfl).1 rfl⟩

/-- Embedding of the reflected Go `any` values the change detector
inspects (`config/diff.go`): the nil interface, a pointer, a struct with
its ordered named fields, and non-struct values. -/
inductive GoVal where
  | vnil : GoVal
  | vptr : GoVal → GoVal
  | vstruct : List (String × GoVal) → GoVal
  | vstr : String → GoVal
  | vint : Int → GoVal
  | vbool : Bool → GoVal
  | vslice : List GoVal → GoVal

mutual

/-- Embedding of `reflect.DeepEqual` on the reflected values: deep
structural equality, with values of different kinds (different dynamic
types) never deeply equal. -/
def goDeepEqual : GoVal → GoVal → Bool
  | GoVal.vnil, GoVal.vnil => true
  | GoVal.vptr a, GoVal.vptr b => goDeepEqual a b
  | GoVal.vstruct fs, GoVal.vstruct gs => goDeepEqualFields fs gs
  | GoVal.vstr a, GoVal.vstr b => a == b
  | GoVal.vint a, GoVal.vint b => a == b
  | GoVal.vbool a, GoVal.vbool b => a == b
  | GoVal.vslice xs, GoVal.vslice ys => goDeepEqualSlice xs ys
  | _, _ => false

/-- Deep equality of slices, element by element. -/
def goDeepEqualSlice : List GoVal → List GoVal → Bool
  | [], [] => true
  | x :: xs, y :: ys => goDeepEqual x y && goDeepEqualSlice xs ys
  | _, _ => false

/-- Deep equality of struct fields: names (standing in for the struct
type's identity) and values must both agree. -/
def goDeepEqualFields : List (String × GoVal) → List (String × GoVal) → Bool
  | [], [] => true
  | (k₁, a) :: fs, (k₂, b) :: gs =>
      k₁ == k₂ && goDeepEqual a b && goDeepEqualFields fs gs
  | _, _ => false

end

/-- The `oldVal.Kind() == reflect.Ptr { oldVal = oldVal.Elem() }` step of
`diffEvent`: dereference exactly one pointer level. -/
def derefOnce : GoVal → GoVal
  | GoVal.vptr v => v
  | v => v

/-- The `reflect.Struct` kind test. -/
def GoVal.isStructKind : GoVal → Bool
  | GoVal.vstruct _ => true
  | _ => false

/-- The `old == nil` interface test of `diffEvent`. -/
def GoVal.isNil : GoVal → Bool
  | GoVal.vnil => true
  | _ => false

/-- The change event of the config package (`Event` in
`config/type.go`-style shape as used by `diffEvent`): the changed
top-level field names and the original inputs. -/
structure Event where
  changedKeys : List String
  oldConfig : GoVal
  newConfig : GoVal

/-- The field loop of `diffEvent`: for each index of the old struct in
order, record the field name when the two field values are not deeply
equal; reading an index beyond the new struct's field count is a
reflection panic, embedded as `none`. -/
def diffFieldsLoop : List (String × GoVal) → List GoVal → Option (List String)
  | [], _ => some []
  | _ :: _, [] => none
  | (name, a) :: fs, b :: gs =>
      match diffFieldsLoop fs gs with
      | none => none
      | some rest => some (if goDeepEqual a b then rest else name :: rest)

/-- Embedding of `diffEvent` from `config/diff.go`: nil inputs produce an
event with no changed keys and the original values; otherwise both values
are dereferenced one pointer level and, when both are structs, the old
record's fields are compared positionally against the new record's field
values by deep equality; in every non-two-structs case the changed key
set stays empty. A reflection panic is embedded as `none`. -/
def diffEvent (old niw : GoVal) : Option Event :=
  if old.isNil || niw.isNil then some ⟨[], old, niw⟩
  else
    match derefOnce old, derefOnce niw with
    | GoVal.vstruct fs, GoVal.vstruct gs =>
        match diffFieldsLoop fs (gs.map Prod.snd) with
        | none => none
        | some cks => some ⟨cks, old, niw⟩
    | _, _ => some ⟨[], old, niw⟩

/-- C9 counterexample: two non-null structs of different shapes are not
resolved to an empty changed-field set — the detector compares their
fields positionally, so `{A: "x"}` against `{B: 1}` reports `A` as
changed. -/
theorem C9_counterexample :
    diffEvent (GoVal.vstruct [("A", GoVal.vstr "x")])
        (GoVal.vstruct [("B", GoVal.vint 1)]) =
      some ⟨["A"], GoVal.vstruct [("A", GoVal.vstr "x")],
        GoVal.vstruct [("B", GoVal.vint 1)]⟩ := by
  simp [diffEvent, GoVal.isNil, derefOnce, diffFieldsLoop, goDeepEqual]

/-- C9 amended: for every pair of inputs in which either input is null or
at least one input is, after one pointer dereference, not a structured
record, the detector returns an event with an empty changed-field set and
the original values, and never fails; only the two-non-null-structs case
(of matching shape or not) enters the positional field comparison. -/
theorem C9_diff_non_struct_empty (old niw : GoVal)
    (h : old.isNil = true ∨ niw.isNil = true ∨
      (derefOnce old).isStructKind = false ∨ (derefOnce niw).isStructKind = false) :
    diffEvent old niw = some ⟨[], old, niw⟩ := by
  rcases h with h | h | h | h
  · simp [diffEvent, h]
  · simp [diffEvent, h]
  · rw [diffEvent]
    rcases hn : (old.isNil || niw.isNil) with _ | _
    · simp only [Bool.false_eq_true, if_false]
      rcases hdo : derefOnce old with _ | a | fs | s | n | b | xs <;>
        simp [GoVal.isStructKind, hdo] at h ⊢
    · simp
  · rw [diffEvent]
    rcases hn : (old.isNil || niw.isNil) with _ | _
    · simp only [Bool.false_eq_true, if_false]
      rcases hdo : derefOnce old with _ | a | fs | s | n | b | xs <;>
        rcases hdn : derefOnce niw with _ | a' | gs | s' | n' | b' | ys <;>
        simp [GoVal.isStructKind, hdn] at h ⊢
    · simp

/-- Witness for the amended C9 at concrete inputs: a nil old value, and a
string old value against a struct. -/
theorem C9_diff_non_struct_empty_witness :
    diffEvent GoVal.vnil (GoVal.vstruct [("A", GoVal.vint 1)]) =
      some ⟨[], GoVal.vnil, GoVal.vstruct [("A", GoVal.vint 1)]⟩ ∧
    diffEvent (GoVal.vstr "a") (GoVal.vstruct [("A", GoVal.vint 1)]) =
      some ⟨[], GoVal.vstr "a", GoVal.vstruct [("A", GoVal.vint 1)]⟩ :=
  ⟨C9_diff_non_struct_empty _ _ (Or.inl rfl),
    C9_diff_non_struct_empty _ _ (Or.inr (Or.inr (Or.inl rfl)))⟩

end Genever

